import Mathlib

set_option maxHeartbeats 1000000

namespace StreamzDask

/-- Values flowing through the dataflow graph: the Python scalars and 2-tuples
that the operators of `streamz/dask.py` manipulate, plus `future i`, the opaque
handle (a `distributed.Future`) referencing slot `i` of the remote executor's
task store. -/
inductive V : Type where
  | vint : Int → V
  | vbool : Bool → V
  | vnone : V
  | vpair : V → V → V
  | future : Nat → V
  deriving DecidableEq

/-- Python truthiness, as tested by `if result:` in `filter.update`: zero and
`None` are falsy, booleans are themselves, 2-tuples and future objects are
truthy. -/
def V.truthy : V → Bool
  | .vint n => n != 0
  | .vbool b => b
  | .vnone => false
  | .vpair _ _ => true
  | .future _ => true

/-- A value is concrete (purely local) when it contains no remote handle. -/
def V.concrete : V → Bool
  | .vint _ => true
  | .vbool _ => true
  | .vnone => true
  | .vpair a b => a.concrete && b.concrete
  | .future _ => false

/-- The `operator.getitem` function restricted to the values of `V`: indexing
into a 2-tuple, as submitted by `accumulate.update` with indices 0 and 1. -/
def V.getitem (v : V) (i : Int) : Except String V :=
  match v with
  | .vpair a b =>
      if i = 0 ∨ i = -2 then .ok a
      else if i = 1 ∨ i = -1 then .ok b
      else .error "tuple index out of range"
  | _ => .error "object is not subscriptable"

instance {ε α : Type} [DecidableEq ε] [DecidableEq α] :
    DecidableEq (Except ε α) := fun x y =>
  match x, y with
  | .ok a, .ok b =>
      if h : a = b then .isTrue (by simp [h]) else .isFalse (by simp [h])
  | .error a, .error b =>
      if h : a = b then .isTrue (by simp [h]) else .isFalse (by simp [h])
  | .ok _, .error _ => .isFalse (by simp)
  | .error _, .ok _ => .isFalse (by simp)

/-- Modelled from the spec: the Remote Executor Client (spec section 6), an
external collaborator (`dask.distributed` client) that is not part of this
repository.  Its observable state is the store of task outcomes; the handle
`V.future i` refers to slot `i`. -/
structure Exec : Type where
  store : List (Except String V)
  deriving DecidableEq

/-- Modelled from the spec: the resolve-all capability of the Remote Executor
Client (spec section 6) — resolving a handle, or a nested structure of
handles, to the outcome of the remote computation it refers to.  A failed
remote computation surfaces as an error at resolution. -/
def Exec.resolveV (e : Exec) : V → Except String V
  | .future i =>
      match e.store[i]? with
      | some r => r
      | none => .error "lost dependency"
  | .vpair a b =>
      match e.resolveV a, e.resolveV b with
      | .ok a2, .ok b2 => .ok (.vpair a2 b2)
      | .error m, _ => .error m
      | .ok _, .error m => .error m
  | .vint n => .ok (.vint n)
  | .vbool b => .ok (.vbool b)
  | .vnone => .ok .vnone

/-- Resolution of a list of submitted arguments, first failure wins. -/
def Exec.resolveArgs (e : Exec) : List V → Except String (List V)
  | [] => .ok []
  | v :: vs =>
      match e.resolveV v, e.resolveArgs vs with
      | .ok v2, .ok vs2 => .ok (v2 :: vs2)
      | .error m, _ => .error m
      | .ok _, .error m => .error m

/-- Modelled from the spec: the submit capability of the Remote Executor
Client (spec section 6).  Submission never blocks the caller: it immediately
returns a fresh handle, and the executor records the outcome of applying the
function to the resolved arguments (handle arguments are resolved remotely
before application, as `dask.distributed.Client.submit` does). -/
def Exec.submit (e : Exec) (f : List V → Except String V) (args : List V) :
    V × Exec :=
  let outcome :=
    match e.resolveArgs args with
    | .ok rargs => f rargs
    | .error m => .error m
  (V.future e.store.length, ⟨e.store ++ [outcome]⟩)

/-- Modelled from the spec: the scatter capability of the Remote Executor
Client (spec section 6) — transfers a sequence of local values into
remote-accessible storage and returns one handle per value. -/
def Exec.scatterOp (e : Exec) (vs : List V) : List V × Exec :=
  ((List.range vs.length).map (fun i => V.future (e.store.length + i)),
   ⟨e.store ++ vs.map Except.ok⟩)

/-- Events recorded while a per-item processing routine runs, in program
order: remote submission, awaiting a remote result, the scatter and gather
calls (with their arguments), refcount retain and release, the write to the
node's state field, and calling and awaiting (or failing on) the emission
primitive. -/
inductive Ev : Type where
  | submitCall : Ev
  | resolveAwait : Ev
  | scatterCall : List V → Ev
  | gatherCall : V → Ev
  | retainRefs : Ev
  | releaseRefs : Ev
  | stateSet : Ev
  | emitCall : V → Ev
  | emitAwaited : V → Ev
  | emitFailed : V → Ev
  deriving DecidableEq

/-- Result of one run of a per-item processing routine (`update`): the
executor state afterwards, the values passed to the emission primitive, the
routine's return (an exception, `None`, or a value), how many times
`_retain_refs` and `_release_refs` ran, and the event trace. -/
structure UpdOut : Type where
  exec : Exec
  emitted : List V
  ret : Except String (Option V)
  retains : Nat
  releases : Nat
  trace : List Ev

/-- Modelled from the spec: the emission primitive `_emit` of the base graph
engine (`streamz.core`, not under src/) is an awaitable that completes when
every downstream consumer has finished with the item; the behaviour of the
downstream consumers is a parameter `emitB` of each update model, and a
successful downstream run yields the awaited result. -/
def okEmit : V → Except String V := fun v => Except.ok v

/-- The `map` node's configuration: the bound function and the fixed extra
positional arguments (`self.func`, `self.args`; keyword options are absorbed
into the function). -/
structure MapNode : Type where
  func : List V → Except String V
  args : List V

/-- Embeds `map.update` (src/streamz/dask.py lines 56-62): submit `self.func`
with `x` and the fixed extra arguments to the client, then return the awaited
result of emitting the returned future. -/
def map.update (n : MapNode) (emitB : V → Except String V) (e : Exec)
    (x : V) : UpdOut :=
  let p := e.submit n.func (x :: n.args)
  match emitB p.1 with
  | .ok r =>
      { exec := p.2, emitted := [p.1], ret := .ok (some r),
        retains := 0, releases := 0,
        trace := [.submitCall, .emitCall p.1, .emitAwaited p.1] }
  | .error m =>
      { exec := p.2, emitted := [p.1], ret := .error m,
        retains := 0, releases := 0,
        trace := [.submitCall, .emitCall p.1, .emitFailed p.1] }

/-- The `filter` node's configuration: the predicate and the fixed extra
positional arguments (`self.predicate`, `self.args`). -/
structure FilterNode : Type where
  predicate : List V → Except String V
  args : List V

/-- Embeds `filter.update` (src/streamz/dask.py lines 77-92): inside the try
block, retain the metadata refs, submit the predicate and await its remote
result; if the result is truthy, emit the original local value `x` and return
the awaited emission result; the finally block releases the refs on every
exit path (truthy, falsy, predicate failure, emission failure). -/
def filter.update (n : FilterNode) (emitB : V → Except String V) (e : Exec)
    (x : V) : UpdOut :=
  let p := e.submit n.predicate (x :: n.args)
  match p.2.resolveV p.1 with
  | .error m =>
      { exec := p.2, emitted := [], ret := .error m,
        retains := 1, releases := 1,
        trace := [.retainRefs, .submitCall, .resolveAwait, .releaseRefs] }
  | .ok result =>
      if result.truthy then
        match emitB x with
        | .ok r =>
            { exec := p.2, emitted := [x], ret := .ok (some r),
              retains := 1, releases := 1,
              trace := [.retainRefs, .submitCall, .resolveAwait,
                        .emitCall x, .emitAwaited x, .releaseRefs] }
        | .error m =>
            { exec := p.2, emitted := [x], ret := .error m,
              retains := 1, releases := 1,
              trace := [.retainRefs, .submitCall, .resolveAwait,
                        .emitCall x, .emitFailed x, .releaseRefs] }
      else
        { exec := p.2, emitted := [], ret := .ok none,
          retains := 1, releases := 1,
          trace := [.retainRefs, .submitCall, .resolveAwait, .releaseRefs] }

/-- Top-level names bound in the module `streamz/dask.py` — its imports and
the classes it defines — transcribed from the source.  This is the global
namespace Python consults when `filter.__init__` evaluates the bare name
`_truthy`; names starting with an underscore are not Python builtins. -/
def daskModuleNames : List String :=
  ["getitem", "gen", "apply", "default_client", "distributed", "tqdm",
   "Stream", "core", "sources",
   "DaskStream", "map", "filter", "accumulate", "scatter", "gather",
   "starmap", "flatten", "buffer", "combine_latest", "delay", "latest",
   "partition", "rate_limit", "sliding_window", "timed_window", "union",
   "zip", "filenames", "from_textfile"]

/-- Embeds `filter.__init__` (src/streamz/dask.py lines 67-75) restricted to
the predicate argument: when `predicate is None` the code evaluates the bare
name `_truthy`, which Python resolves against the module's global namespace
(`daskModuleNames`); an unbound name raises `NameError`.  The bound-name
branch of the lookup is dead because `_truthy` is nowhere defined or
imported. -/
def filter.init (predicate : Option (List V → Except String V))
    (args : List V) : Except String FilterNode :=
  match predicate with
  | Option.none =>
      if daskModuleNames.contains "_truthy" then
        .ok { predicate := fun _ => .error "unreachable", args := args }
      else
        .error "NameError: name _truthy is not defined"
  | Option.some p => .ok { predicate := p, args := args }

/-- The `accumulate` node's state field `self.state`: either the sentinel
`core.no_default` (no start value configured) or a held value/handle. -/
inductive ASt : Type where
  | noDefault : ASt
  | v : V → ASt
  deriving DecidableEq

/-- The `accumulate` node's configuration: the fold function
(`self.func`, applied to `[state, x]`), `returns_state`, and `with_state`. -/
structure AccNode : Type where
  func : List V → Except String V
  returnsState : Bool
  withState : Bool

/-- The `operator.getitem` function as a submittable task, applied by
`accumulate.update` to `[result, index]`. -/
def getitemF : List V → Except String V
  | [v, .vint i] => v.getitem i
  | _ => .error "getitem arity"

/-- Embeds `accumulate.update` (src/streamz/dask.py lines 106-125).  First
item with no start value: the state becomes `x` directly (no remote call) and
`x` (or the pair `(state, x)` under `with_state`) is emitted.  Later items:
submit `(func, state, x)`; under `returns_state` derive the new state and the
output by two remote `getitem` submissions at indices 0 and 1, otherwise both
are the combined handle; write the state field, then emit. -/
def accumulate.update (n : AccNode) (emitB : V → Except String V) (st : ASt)
    (e : Exec) (x : V) : ASt × UpdOut :=
  match st with
  | .noDefault =>
      let out0 := if n.withState then V.vpair x x else x
      match emitB out0 with
      | .ok r =>
          (ASt.v x,
           { exec := e, emitted := [out0], ret := .ok (some r),
             retains := 0, releases := 0,
             trace := [.stateSet, .emitCall out0, .emitAwaited out0] })
      | .error m =>
          (ASt.v x,
           { exec := e, emitted := [out0], ret := .error m,
             retains := 0, releases := 0,
             trace := [.stateSet, .emitCall out0, .emitFailed out0] })
  | .v s =>
      let p := e.submit n.func [s, x]
      if n.returnsState then
        let q := p.2.submit getitemF [p.1, V.vint 0]
        let w := q.2.submit getitemF [p.1, V.vint 1]
        let out0 := if n.withState then V.vpair q.1 w.1 else w.1
        match emitB out0 with
        | .ok r =>
            (ASt.v q.1,
             { exec := w.2, emitted := [out0], ret := .ok (some r),
               retains := 0, releases := 0,
               trace := [.submitCall, .submitCall, .submitCall, .stateSet,
                         .emitCall out0, .emitAwaited out0] })
        | .error m =>
            (ASt.v q.1,
             { exec := w.2, emitted := [out0], ret := .error m,
               retains := 0, releases := 0,
               trace := [.submitCall, .submitCall, .submitCall, .stateSet,
                         .emitCall out0, .emitFailed out0] })
      else
        let out0 := if n.withState then V.vpair p.1 p.1 else p.1
        match emitB out0 with
        | .ok r =>
            (ASt.v p.1,
             { exec := p.2, emitted := [out0], ret := .ok (some r),
               retains := 0, releases := 0,
               trace := [.submitCall, .stateSet,
                         .emitCall out0, .emitAwaited out0] })
        | .error m =>
            (ASt.v p.1,
             { exec := p.2, emitted := [out0], ret := .error m,
               retains := 0, releases := 0,
               trace := [.submitCall, .stateSet,
                         .emitCall out0, .emitFailed out0] })

/-- Drives `accumulate.update` over a sequence of incoming items, threading
the node's state field and the executor state, and concatenating the emitted
values; per-node serialization (spec section 5) means the items are processed
one after the other. -/
def accumulate.run (n : AccNode) (emitB : V → Except String V) :
    ASt → Exec → List V → ASt × Exec × List V
  | st, e, [] => (st, e, [])
  | st, e, x :: xs =>
      let r := accumulate.update n emitB st e x
      let rest := accumulate.run n emitB r.1 r.2.exec xs
      (rest.1, rest.2.1, r.2.emitted ++ rest.2.2)

/-- Embeds `scatter.update` (src/streamz/dask.py lines 135-149): retain the
metadata refs, hand the single-element list `[x]` to the client's scatter
capability, unwrap the single handle at index 0, emit it, and release the
refs after the emission returns.  There is no try/finally: the release line
is only reached when the scatter call and the emission both succeed. -/
def scatter.update (emitB : V → Except String V) (e : Exec) (x : V) :
    UpdOut :=
  let p := e.scatterOp [x]
  match p.1 with
  | [] =>
      { exec := p.2, emitted := [], ret := .error "IndexError",
        retains := 1, releases := 0,
        trace := [.retainRefs, .scatterCall [x]] }
  | fut :: _ =>
      match emitB fut with
      | .ok f =>
          { exec := p.2, emitted := [fut], ret := .ok (some f),
            retains := 1, releases := 1,
            trace := [.retainRefs, .scatterCall [x], .emitCall fut,
                      .emitAwaited fut, .releaseRefs] }
      | .error m =>
          { exec := p.2, emitted := [fut], ret := .error m,
            retains := 1, releases := 0,
            trace := [.retainRefs, .scatterCall [x], .emitCall fut,
                      .emitFailed fut] }

/-- Embeds `gather.update` (src/streamz/dask.py lines 170-178): retain the
metadata refs, await the client's gather (resolve-all) on `x`, emit the
resolved value, and release the refs after the emission returns.  There is no
try/finally: the release line is only reached when both the gather and the
emission succeed. -/
def gather.update (emitB : V → Except String V) (e : Exec) (x : V) :
    UpdOut :=
  match e.resolveV x with
  | .error m =>
      { exec := e, emitted := [], ret := .error m,
        retains := 1, releases := 0,
        trace := [.retainRefs, .gatherCall x] }
  | .ok result =>
      match emitB result with
      | .ok r2 =>
          { exec := e, emitted := [result], ret := .ok (some r2),
            retains := 1, releases := 1,
            trace := [.retainRefs, .gatherCall x, .emitCall result,
                      .emitAwaited result, .releaseRefs] }
      | .error m =>
          { exec := e, emitted := [result], ret := .error m,
            retains := 1, releases := 0,
            trace := [.retainRefs, .gatherCall x, .emitCall result,
                      .emitFailed result] }

/-- The `starmap` node's configuration: the bound function (`self.func`;
keyword options absorbed into it). -/
structure StarmapNode : Type where
  func : List V → Except String V

/-- Unpacking an incoming tuple into an argument list, as `dask.utils.apply`
does with `func(*args)`; tuples are modelled as 2-tuples. -/
def tupleArgs : V → Except String (List V)
  | .vpair a b => .ok [a, b]
  | _ => .error "argument is not iterable"

/-- The `dask.utils.apply` helper partially applied to the node's function:
the task actually submitted by `starmap.update`. -/
def applyF (f : List V → Except String V) : List V → Except String V
  | [xv] =>
      match tupleArgs xv with
      | .ok l => f l
      | .error m => .error m
  | _ => .error "apply arity"

/-- Embeds `starmap.update` (src/streamz/dask.py lines 190-193): submit
`apply(self.func, x, kwargs)` to the client and return the awaited result of
emitting the returned future. -/
def starmap.update (n : StarmapNode) (emitB : V → Except String V)
    (e : Exec) (x : V) : UpdOut :=
  let p := e.submit (applyF n.func) [x]
  match emitB p.1 with
  | .ok r =>
      { exec := p.2, emitted := [p.1], ret := .ok (some r),
        retains := 0, releases := 0,
        trace := [.submitCall, .emitCall p.1, .emitAwaited p.1] }
  | .error m =>
      { exec := p.2, emitted := [p.1], ret := .error m,
        retains := 0, releases := 0,
        trace := [.submitCall, .emitCall p.1, .emitFailed p.1] }

/-- A trace respects the backpressure contract when every call to the
emission primitive is immediately followed by the completion (successful or
exceptional) of awaiting it — the routine never proceeds past an emission,
or returns, with the emission's awaitable still pending. -/
def emitsAwaited : List Ev → Bool
  | [] => true
  | .emitCall _ :: .emitAwaited _ :: r => emitsAwaited r
  | .emitCall _ :: .emitFailed _ :: r => emitsAwaited r
  | .emitCall _ :: _ => false
  | _ :: r => emitsAwaited r

/-- Lifts a binary Lean function to a submittable fold task of two
arguments. -/
def liftF2 (f : V → V → V) : List V → Except String V
  | [a, b] => .ok (f a b)
  | _ => .error "arity"

/-- The running left-folds of `f` from accumulator `acc` over a list:
`runningFolds f a [x1, x2, ...] = [f a x1, f (f a x1) x2, ...]`. -/
def runningFolds (f : V → V → V) (acc : V) : List V → List V
  | [] => []
  | x :: xs => f acc x :: runningFolds f (f acc x) xs

/-- A value only mentions handles that the executor's store has slots for. -/
def V.validIn (v : V) (e : Exec) : Bool :=
  match v with
  | .future i => i < e.store.length
  | .vpair a b => a.validIn e && b.validIn e
  | _ => true

/-- The executor's store only ever grows (tasks are appended, never
removed). -/
def Exec.ext (e e2 : Exec) : Prop := ∃ t, e2.store = e.store ++ t

/-- The `accumulate` node configured with a pure binary fold function, no
`returns_state` and no `with_state`. -/
def accF (f : V → V → V) : AccNode :=
  { func := liftF2 f, returnsState := false, withState := false }

/-- Integer addition on `V`, a sample fold function. -/
def addV : V → V → V
  | .vint m, .vint n => .vint (m + n)
  | _, _ => .vnone

/-- Sample unary task: doubling an integer. -/
def dblF : List V → Except String V
  | [.vint m] => .ok (.vint (2 * m))
  | _ => .error "arity"

/-- Sample binary task: integer addition. -/
def addF : List V → Except String V
  | [.vint m, .vint k] => .ok (.vint (m + k))
  | _ => .error "arity"

/-- Sample predicate task: positivity of an integer. -/
def posF : List V → Except String V
  | [.vint m] => .ok (.vbool (decide (0 < m)))
  | _ => .error "arity"

/-- Sample fold task returning a `(state, output)` pair: sum and product. -/
def sumProdF : List V → Except String V
  | [.vint m, .vint k] => .ok (.vpair (.vint (m + k)) (.vint (m * k)))
  | _ => .error "arity"

theorem resolveV_concrete (e : Exec) (v : V) (h : v.concrete = true) :
    e.resolveV v = .ok v := by
  induction v with
  | vint n => rfl
  | vbool b => rfl
  | vnone => rfl
  | vpair a b iha ihb =>
      simp only [V.concrete, Bool.and_eq_true] at h
      simp [Exec.resolveV, iha h.1, ihb h.2]
  | future i => simp [V.concrete] at h

theorem resolveArgs_concrete (e : Exec) (l : List V)
    (h : ∀ x ∈ l, x.concrete = true) : e.resolveArgs l = .ok l := by
  induction l with
  | nil => rfl
  | cons v vs ih =>
      simp only [Exec.resolveArgs]
      rw [resolveV_concrete e v (h v (by simp)),
        ih (fun x hx => h x (by simp [hx]))]

theorem getElem?_snoc_length {α : Type} (l : List α) (a : α) :
    (l ++ [a])[l.length]? = some a := by
  rw [List.getElem?_append_right (Nat.le_refl _)]
  simp

theorem getElem?_append_self {α : Type} (l t : List α) :
    (l ++ t)[l.length]? = t[0]? := by
  rw [List.getElem?_append_right (Nat.le_refl _)]
  simp

theorem getElem?_append_at {α : Type} (l t : List α) (k : Nat) :
    (l ++ t)[l.length + k]? = t[k]? := by
  rw [List.getElem?_append_right (Nat.le_add_right _ _)]
  simp

theorem concrete_validIn (e : Exec) (v : V) (h : v.concrete = true) :
    v.validIn e = true := by
  induction v with
  | vint n => rfl
  | vbool b => rfl
  | vnone => rfl
  | vpair a b iha ihb =>
      simp only [V.concrete, Bool.and_eq_true] at h
      simp [V.validIn, iha h.1, ihb h.2]
  | future i => simp [V.concrete] at h

theorem ext_refl (e : Exec) : e.ext e := ⟨[], by simp⟩

theorem ext_trans {e1 e2 e3 : Exec} (h1 : e1.ext e2) (h2 : e2.ext e3) :
    e1.ext e3 := by
  obtain ⟨t1, ht1⟩ := h1
  obtain ⟨t2, ht2⟩ := h2
  exact ⟨t1 ++ t2, by rw [ht2, ht1, List.append_assoc]⟩

theorem submit_ext (e : Exec) (f : List V → Except String V)
    (args : List V) : e.ext (e.submit f args).2 := ⟨_, rfl⟩

theorem validIn_ext {e e2 : Exec} (h : e.ext e2) (v : V)
    (hv : v.validIn e = true) : v.validIn e2 = true := by
  obtain ⟨t, ht⟩ := h
  induction v with
  | vint n => rfl
  | vbool b => rfl
  | vnone => rfl
  | vpair a b iha ihb =>
      simp only [V.validIn, Bool.and_eq_true] at hv ⊢
      exact ⟨iha hv.1, ihb hv.2⟩
  | future i =>
      simp only [V.validIn, decide_eq_true_eq] at hv ⊢
      rw [ht]
      simp only [List.length_append]
      omega

theorem resolveV_ext {e e2 : Exec} (h : e.ext e2) (v : V)
    (hv : v.validIn e = true) : e2.resolveV v = e.resolveV v := by
  obtain ⟨t, ht⟩ := h
  induction v with
  | vint n => rfl
  | vbool b => rfl
  | vnone => rfl
  | vpair a b iha ihb =>
      simp only [V.validIn, Bool.and_eq_true] at hv
      simp only [Exec.resolveV, iha hv.1, ihb hv.2]
  | future i =>
      simp only [V.validIn, decide_eq_true_eq] at hv
      simp only [Exec.resolveV]
      rw [ht, List.getElem?_append, if_pos hv]

theorem submit_fst (e : Exec) (f : List V → Except String V)
    (args : List V) : (e.submit f args).1 = V.future e.store.length := rfl

theorem submit_resolve (e : Exec) (f : List V → Except String V)
    (args rargs : List V) (h : e.resolveArgs args = .ok rargs) :
    (e.submit f args).2.resolveV (e.submit f args).1 = f rargs := by
  simp only [Exec.submit, h, Exec.resolveV]
  rw [getElem?_snoc_length]

theorem submit_fresh_valid (e : Exec) (f : List V → Except String V)
    (args : List V) :
    ((e.submit f args).1).validIn (e.submit f args).2 = true := by
  simp [Exec.submit, V.validIn]

theorem accUpdate_step (f : V → V → V) (emitB : V → Except String V)
    (sv x : V) (e : Exec) :
    (accumulate.update (accF f) emitB (ASt.v sv) e x).1
        = ASt.v (V.future e.store.length) ∧
    (accumulate.update (accF f) emitB (ASt.v sv) e x).2.exec
        = (e.submit (liftF2 f) [sv, x]).2 ∧
    (accumulate.update (accF f) emitB (ASt.v sv) e x).2.emitted
        = [V.future e.store.length] := by
  simp only [accumulate.update, accF]
  cases h : emitB (V.future e.store.length) <;> simp [Exec.submit, h]

theorem accRun_inv (f : V → V → V) (emitB : V → Except String V)
    (xs : List V) (hxs : ∀ x ∈ xs, x.concrete = true) :
    ∀ (e : Exec) (sv a : V), sv.validIn e = true → e.resolveV sv = .ok a →
    ∃ sv2 : V,
      (accumulate.run (accF f) emitB (ASt.v sv) e xs).1 = ASt.v sv2 ∧
      e.ext (accumulate.run (accF f) emitB (ASt.v sv) e xs).2.1 ∧
      sv2.validIn (accumulate.run (accF f) emitB (ASt.v sv) e xs).2.1
        = true ∧
      (accumulate.run (accF f) emitB (ASt.v sv) e xs).2.1.resolveV sv2
        = .ok (xs.foldl f a) ∧
      ((accumulate.run (accF f) emitB (ASt.v sv) e xs).2.2).map
          (accumulate.run (accF f) emitB (ASt.v sv) e xs).2.1.resolveV
        = (runningFolds f a xs).map Except.ok := by
  induction xs with
  | nil =>
      intro e sv a hv hres
      exact ⟨sv, rfl, ext_refl e, hv, by simpa using hres, rfl⟩
  | cons x xs ih =>
      intro e sv a hv hres
      have hx : x.concrete = true := hxs x (by simp)
      have hxs2 : ∀ y ∈ xs, y.concrete = true :=
        fun y hy => hxs y (by simp [hy])
      have hargs : e.resolveArgs [sv, x] = .ok [a, x] := by
        simp [Exec.resolveArgs, hres, resolveV_concrete e x hx]
      obtain ⟨hst, hexec, hemit⟩ := accUpdate_step f emitB sv x e
      have hres1 :
          (e.submit (liftF2 f) [sv, x]).2.resolveV
            (V.future e.store.length) = .ok (f a x) := by
        have := submit_resolve e (liftF2 f) [sv, x] [a, x] hargs
        rw [submit_fst] at this
        rw [this]
        rfl
      have hv1 : (V.future e.store.length).validIn
          (e.submit (liftF2 f) [sv, x]).2 = true := by
        have := submit_fresh_valid e (liftF2 f) [sv, x]
        rwa [submit_fst] at this
      obtain ⟨sv2, h1, h2, h3, h4, h5⟩ :=
        ih hxs2 (e.submit (liftF2 f) [sv, x]).2
          (V.future e.store.length) (f a x) hv1 hres1
      refine ⟨sv2, ?_, ?_, ?_, ?_, ?_⟩ <;>
        simp only [accumulate.run, hst, hexec, hemit]
      · exact h1
      · exact ext_trans (submit_ext e (liftF2 f) [sv, x]) h2
      · exact h3
      · simpa using h4
      · simp only [List.cons_append, List.nil_append, List.map_cons,
          runningFolds, List.cons.injEq]
        refine ⟨?_, h5⟩
        rw [resolveV_ext h2 (V.future e.store.length) hv1]
        exact hres1

theorem mapUpdate_eval (n : MapNode) (emitB : V → Except String V)
    (e : Exec) (x : V) :
    (map.update n emitB e x).emitted = [(e.submit n.func (x :: n.args)).1] ∧
    (map.update n emitB e x).exec = (e.submit n.func (x :: n.args)).2 := by
  simp only [map.update]
  cases h : emitB (e.submit n.func (x :: n.args)).1 <;> simp [h]

theorem starmapUpdate_eval (n : StarmapNode) (emitB : V → Except String V)
    (e : Exec) (x : V) :
    (starmap.update n emitB e x).emitted
        = [(e.submit (applyF n.func) [x]).1] ∧
    (starmap.update n emitB e x).exec
        = (e.submit (applyF n.func) [x]).2 := by
  simp only [starmap.update]
  cases h : emitB (e.submit (applyF n.func) [x]).1 <;> simp [h]

/-- C1: For every item `x` processed by the execution-substituting transform
(`map.update`; likewise `starmap.update` for tuple items), the operator
submits the bound function with `x` and the fixed extra arguments to the
remote executor client without evaluating the function locally — the value
emitted downstream is the returned handle — and the resolution of that
handle equals the value the function would have produced on direct local
application with the same arguments. -/
theorem map_emits_handle_resolving_to_local_application
    (n : MapNode) (emitB : V → Except String V) (e : Exec) (x : V)
    (hx : x.concrete = true) (ha : ∀ v ∈ n.args, v.concrete = true)
    (sn : StarmapNode) (emitB2 : V → Except String V) (e2 : Exec) (a b : V)
    (ha2 : a.concrete = true) (hb2 : b.concrete = true) :
    ((map.update n emitB e x).emitted = [V.future e.store.length] ∧
     (map.update n emitB e x).exec.resolveV (V.future e.store.length)
        = n.func (x :: n.args)) ∧
    ((starmap.update sn emitB2 e2 (V.vpair a b)).emitted
        = [V.future e2.store.length] ∧
     (starmap.update sn emitB2 e2 (V.vpair a b)).exec.resolveV
        (V.future e2.store.length) = sn.func [a, b]) := by
  constructor
  · have hargs : e.resolveArgs (x :: n.args) = .ok (x :: n.args) :=
      resolveArgs_concrete e (x :: n.args) (by
        intro y hy
        rcases List.mem_cons.mp hy with rfl | hy2
        · exact hx
        · exact ha y hy2)
    have hres := submit_resolve e n.func (x :: n.args) (x :: n.args) hargs
    rw [submit_fst] at hres
    obtain ⟨h1, h2⟩ := mapUpdate_eval n emitB e x
    rw [submit_fst] at h1
    exact ⟨h1, by rw [h2]; exact hres⟩
  · have hpair : (V.vpair a b).concrete = true := by
      simp [V.concrete, ha2, hb2]
    have hargs : e2.resolveArgs [V.vpair a b] = .ok [V.vpair a b] :=
      resolveArgs_concrete e2 [V.vpair a b] (by simpa using hpair)
    have hres := submit_resolve e2 (applyF sn.func) [V.vpair a b]
      [V.vpair a b] hargs
    rw [submit_fst] at hres
    obtain ⟨h1, h2⟩ := starmapUpdate_eval sn emitB2 e2 (V.vpair a b)
    rw [submit_fst] at h1
    refine ⟨h1, ?_⟩
    rw [h2, hres]
    rfl

/-- C1 witness: the transform with `f(x) = 2*x` on input 3 emits a handle
resolving to 6, and the star-transform with addition on the tuple (1, 2)
emits a handle resolving to 3. -/
theorem map_emits_handle_witness :
    (V.vint 3).concrete = true ∧
    (∀ v ∈ ([] : List V), v.concrete = true) ∧
    (V.vint 1).concrete = true ∧
    (V.vint 2).concrete = true ∧
    (((map.update ⟨dblF, []⟩ okEmit ⟨[]⟩ (V.vint 3)).emitted
        = [V.future 0] ∧
      (map.update ⟨dblF, []⟩ okEmit ⟨[]⟩ (V.vint 3)).exec.resolveV
        (V.future 0) = .ok (V.vint 6)) ∧
     ((starmap.update ⟨addF⟩ okEmit ⟨[]⟩ (V.vpair (V.vint 1) (V.vint 2))).emitted
        = [V.future 0] ∧
      (starmap.update ⟨addF⟩ okEmit ⟨[]⟩
          (V.vpair (V.vint 1) (V.vint 2))).exec.resolveV (V.future 0)
        = .ok (V.vint 3))) :=
  ⟨by decide, by decide, by decide, by decide,
   map_emits_handle_resolving_to_local_application
     ⟨dblF, []⟩ okEmit ⟨[]⟩ (V.vint 3) (by decide) (by decide)
     ⟨addF⟩ okEmit ⟨[]⟩ (V.vint 1) (V.vint 2) (by decide) (by decide)⟩

/-- C2: For every item `x` processed by the execution-substituting filter,
`x` reaches downstream if and only if the remotely-resolved predicate result
is true, and in the true branch the value forwarded is the original local
value `x` itself (not a handle); in the false branch nothing is emitted and
the routine returns `None`. -/
theorem filter_emits_original_iff_predicate (n : FilterNode) (e : Exec)
    (x : V) (b : Bool) (hx : x.concrete = true)
    (ha : ∀ v ∈ n.args, v.concrete = true)
    (hp : n.predicate (x :: n.args) = .ok (V.vbool b)) :
    (filter.update n okEmit e x).emitted = (if b then [x] else []) ∧
    (b = false → (filter.update n okEmit e x).ret = .ok none) := by
  have hargs : e.resolveArgs (x :: n.args) = .ok (x :: n.args) :=
    resolveArgs_concrete e (x :: n.args) (by
      intro y hy
      rcases List.mem_cons.mp hy with rfl | hy2
      · exact hx
      · exact ha y hy2)
  have hres := submit_resolve e n.predicate (x :: n.args) (x :: n.args) hargs
  simp only [filter.update]
  rw [hres, hp]
  cases b <;> simp [V.truthy, okEmit]

/-- C2 witness: filtering 3 through the positivity predicate emits 3
itself. -/
theorem filter_emits_original_witness :
    (V.vint 3).concrete = true ∧
    (∀ v ∈ ([] : List V), v.concrete = true) ∧
    posF [V.vint 3] = .ok (V.vbool true) ∧
    ((filter.update ⟨posF, []⟩ okEmit ⟨[]⟩ (V.vint 3)).emitted
        = (if true then [V.vint 3] else []) ∧
     (true = false →
        (filter.update ⟨posF, []⟩ okEmit ⟨[]⟩ (V.vint 3)).ret = .ok none)) :=
  ⟨by decide, by decide, by decide,
   filter_emits_original_iff_predicate ⟨posF, []⟩ ⟨[]⟩ (V.vint 3) true
     (by decide) (by decide) (by decide)⟩

/-- C3: For every item processed by the execution-substituting filter, the
metadata tokens are retained before the predicate is evaluated and released
exactly once on every exit path — predicate truthy, predicate falsy,
predicate failure, and emission failure — so the retain count equals the
release count regardless of outcome. -/
theorem filter_retains_equals_releases (n : FilterNode)
    (emitB : V → Except String V) (e : Exec) (x : V) :
    (filter.update n emitB e x).retains = 1 ∧
    (filter.update n emitB e x).releases = 1 ∧
    (filter.update n emitB e x).trace.head? = some Ev.retainRefs := by
  simp only [filter.update]
  split
  · exact ⟨rfl, rfl, rfl⟩
  split
  · split <;> exact ⟨rfl, rfl, rfl⟩
  · exact ⟨rfl, rfl, rfl⟩

/-- C6: For every local value `x` processed by scatter, the value is wrapped
inside a single-element ordered sequence before being handed to the
executor's scatter capability, the single resulting handle is unwrapped, and
that handle (resolving back to `x`) is what is emitted downstream. -/
theorem scatter_wraps_in_singleton (emitB : V → Except String V) (e : Exec)
    (x : V) :
    Ev.scatterCall [x] ∈ (scatter.update emitB e x).trace ∧
    (scatter.update emitB e x).emitted = [V.future e.store.length] ∧
    (scatter.update emitB e x).exec.store = e.store ++ [Except.ok x] ∧
    (scatter.update emitB e x).exec.resolveV (V.future e.store.length)
      = .ok x := by
  have hrange : Exec.scatterOp e [x]
      = ([V.future e.store.length], ⟨e.store ++ [Except.ok x]⟩) := by
    simp [Exec.scatterOp, List.range_succ]
  simp only [scatter.update, hrange]
  cases h : emitB (V.future e.store.length) <;>
    simp [h, Exec.resolveV, getElem?_snoc_length]

/-- C7 counterexample: on a failing downstream emission, `scatter.update`
retains the metadata tokens but never releases them, and on a failed remote
computation `gather.update` likewise skips the release — the claimed
guaranteed release on every failure path is false for the boundary
operators. -/
theorem scatter_gather_release_skipped_on_failure :
    ((scatter.update (fun _ => Except.error "downstream failure") ⟨[]⟩
        (V.vint 0)).retains = 1 ∧
     (scatter.update (fun _ => Except.error "downstream failure") ⟨[]⟩
        (V.vint 0)).releases = 0) ∧
    ((gather.update okEmit ⟨[Except.error "remote failure"]⟩
        (V.future 0)).retains = 1 ∧
     (gather.update okEmit ⟨[Except.error "remote failure"]⟩
        (V.future 0)).releases = 0) := by
  decide

/-- C7 amended: in `scatter.update` and `gather.update` the tokens retained
at the start are released only on the success path — release happens exactly
when the routine returns without an exception; when the remote operation or
the downstream emission fails, the release line is never reached. -/
theorem scatter_gather_release_only_on_success
    (emitB : V → Except String V) (e : Exec) (x : V) :
    ((scatter.update emitB e x).retains = 1 ∧
     (scatter.update emitB e x).releases
        = (match (scatter.update emitB e x).ret with
           | .ok _ => 1
           | .error _ => 0)) ∧
    ((gather.update emitB e x).retains = 1 ∧
     (gather.update emitB e x).releases
        = (match (gather.update emitB e x).ret with
           | .ok _ => 1
           | .error _ => 0)) := by
  constructor
  · simp only [scatter.update]
    split
    · exact ⟨rfl, rfl⟩
    · split <;> exact ⟨rfl, rfl⟩
  · simp only [gather.update]
    split
    · exact ⟨rfl, rfl⟩
    · split <;> exact ⟨rfl, rfl⟩

/-- C8: For any local value `v`, passing `v` through scatter and then gather
yields a value equal to `v`: gather resolves the handle produced by scatter
back to the original value and emits it. -/
theorem scatter_then_gather_roundtrip (e : Exec) (v : V) :
    (scatter.update okEmit e v).emitted = [V.future e.store.length] ∧
    (gather.update okEmit (scatter.update okEmit e v).exec
        (V.future e.store.length)).emitted = [v] ∧
    (gather.update okEmit (scatter.update okEmit e v).exec
        (V.future e.store.length)).ret = .ok (some v) := by
  have hrange : Exec.scatterOp e [v]
      = ([V.future e.store.length], ⟨e.store ++ [Except.ok v]⟩) := by
    simp [Exec.scatterOp, List.range_succ]
  have hsc : (scatter.update okEmit e v).exec
        = ⟨e.store ++ [Except.ok v]⟩ ∧
      (scatter.update okEmit e v).emitted = [V.future e.store.length] := by
    simp [scatter.update, hrange, okEmit]
  obtain ⟨hsc1, hsc2⟩ := hsc
  refine ⟨hsc2, ?_, ?_⟩ <;>
    rw [hsc1] <;>
    simp [gather.update, Exec.resolveV, getElem?_snoc_length, okEmit]

/-- C9: For every execution-substituting operator — transform, filter, fold,
scatter, gather, star-transform — the per-item processing routine awaits the
completion of every call it makes to the emission primitive before
proceeding or returning: in every possible run, each emission event in the
trace is immediately followed by the completion (successful or exceptional)
of awaiting it. -/
theorem updates_await_emission_completion :
    (∀ (n : MapNode) (emitB : V → Except String V) (e : Exec) (x : V),
        emitsAwaited (map.update n emitB e x).trace = true) ∧
    (∀ (n : FilterNode) (emitB : V → Except String V) (e : Exec) (x : V),
        emitsAwaited (filter.update n emitB e x).trace = true) ∧
    (∀ (n : AccNode) (emitB : V → Except String V) (st : ASt) (e : Exec)
        (x : V),
        emitsAwaited (accumulate.update n emitB st e x).2.trace = true) ∧
    (∀ (emitB : V → Except String V) (e : Exec) (x : V),
        emitsAwaited (scatter.update emitB e x).trace = true) ∧
    (∀ (emitB : V → Except String V) (e : Exec) (x : V),
        emitsAwaited (gather.update emitB e x).trace = true) ∧
    (∀ (n : StarmapNode) (emitB : V → Except String V) (e : Exec) (x : V),
        emitsAwaited (starmap.update n emitB e x).trace = true) := by
  refine ⟨?_, ?_, ?_, ?_, ?_, ?_⟩
  · intro n emitB e x
    simp only [map.update]
    split <;> rfl
  · intro n emitB e x
    simp only [filter.update]
    split
    · rfl
    split
    · split <;> rfl
    · rfl
  · intro n emitB st e x
    simp only [accumulate.update]
    repeat' split
    all_goals rfl
  · intro emitB e x
    simp only [scatter.update]
    split
    · rfl
    split <;> rfl
  · intro emitB e x
    simp only [gather.update]
    split
    · rfl
    split <;> rfl
  · intro n emitB e x
    simp only [starmap.update]
    split <;> rfl

/-- C4: For the execution-substituting fold with no explicit start value,
the first item bypasses remote computation entirely — it becomes the initial
state directly and is emitted unchanged (or paired with the state when the
node is configured to emit `(state, value)` tuples) — the second emitted
output resolves to `f x0 x1`, and after processing all items the state
resolves to the left-fold of `f` over the inputs while the emitted outputs
resolve to the running left-folds (so the state after any prefix of length N
is the left-fold over the first N inputs). -/
theorem accumulate_lazy_init_and_left_fold (f : V → V → V) (x0 : V)
    (rest : List V) (e : Exec) (h0 : x0.concrete = true)
    (hr : ∀ x ∈ rest, x.concrete = true) :
    (∃ sv : V,
      (accumulate.run (accF f) okEmit ASt.noDefault e (x0 :: rest)).1
          = ASt.v sv ∧
      (accumulate.run (accF f) okEmit ASt.noDefault e
          (x0 :: rest)).2.1.resolveV sv = .ok (rest.foldl f x0) ∧
      ((accumulate.run (accF f) okEmit ASt.noDefault e
          (x0 :: rest)).2.2).head? = some x0 ∧
      ((accumulate.run (accF f) okEmit ASt.noDefault e (x0 :: rest)).2.2).map
          (accumulate.run (accF f) okEmit ASt.noDefault e
            (x0 :: rest)).2.1.resolveV
        = (x0 :: runningFolds f x0 rest).map Except.ok) ∧
    (accumulate.update ⟨liftF2 f, false, true⟩ okEmit ASt.noDefault e
        x0).2.emitted = [V.vpair x0 x0] := by
  constructor
  · have hupd : accumulate.update (accF f) okEmit ASt.noDefault e x0
        = (ASt.v x0,
           { exec := e, emitted := [x0], ret := .ok (some x0),
             retains := 0, releases := 0,
             trace := [.stateSet, .emitCall x0, .emitAwaited x0] }) := rfl
    obtain ⟨sv, h1, h2, h3, h4, h5⟩ :=
      accRun_inv f okEmit rest hr e x0 x0 (concrete_validIn e x0 h0)
        (resolveV_concrete e x0 h0)
    refine ⟨sv, ?_, ?_, ?_, ?_⟩ <;>
      simp only [accumulate.run, hupd]
    · exact h1
    · exact h4
    · simp
    · simp only [List.cons_append, List.nil_append, List.map_cons,
        List.cons.injEq]
      exact ⟨resolveV_concrete _ x0 h0, h5⟩
  · rfl

/-- C4 witness: folding addition over inputs 1, 2, 3 with no start value:
the first emitted value is 1 itself, the emitted handles resolve to the
running sums 1, 3, 6, and the final state resolves to 6; with `with_state`
set the first item is emitted as the pair (1, 1). -/
theorem accumulate_lazy_init_witness :
    (V.vint 1).concrete = true ∧
    (∀ x ∈ [V.vint 2, V.vint 3], x.concrete = true) ∧
    ((∃ sv : V,
        (accumulate.run (accF addV) okEmit ASt.noDefault ⟨[]⟩
            [V.vint 1, V.vint 2, V.vint 3]).1 = ASt.v sv ∧
        (accumulate.run (accF addV) okEmit ASt.noDefault ⟨[]⟩
            [V.vint 1, V.vint 2, V.vint 3]).2.1.resolveV sv
          = .ok ([V.vint 2, V.vint 3].foldl addV (V.vint 1)) ∧
        ((accumulate.run (accF addV) okEmit ASt.noDefault ⟨[]⟩
            [V.vint 1, V.vint 2, V.vint 3]).2.2).head? = some (V.vint 1) ∧
        ((accumulate.run (accF addV) okEmit ASt.noDefault ⟨[]⟩
            [V.vint 1, V.vint 2, V.vint 3]).2.2).map
            (accumulate.run (accF addV) okEmit ASt.noDefault ⟨[]⟩
              [V.vint 1, V.vint 2, V.vint 3]).2.1.resolveV
          = (V.vint 1 ::
              runningFolds addV (V.vint 1) [V.vint 2, V.vint 3]).map
              Except.ok) ∧
     (accumulate.update ⟨liftF2 addV, false, true⟩ okEmit ASt.noDefault
        ⟨[]⟩ (V.vint 1)).2.emitted = [V.vpair (V.vint 1) (V.vint 1)]) :=
  ⟨by decide, by decide,
   accumulate_lazy_init_and_left_fold addV (V.vint 1)
     [V.vint 2, V.vint 3] ⟨[]⟩ (by decide) (by decide)⟩

/-- C5: For every item after the first processed by the
execution-substituting fold, `(f, S, x)` is submitted remotely; when the
fold function is declared to return a `(state, output)` pair, the new state
and the output are obtained as two derived handles by remote `getitem`
submissions indexing the combined result at 0 (new state) and 1 (output);
and in all cases the node's state field is written to the new-state handle
before the output handle is emitted (the `stateSet` event precedes the
emission events in the trace). -/
theorem accumulate_returns_state_indexing (fF : List V → Except String V)
    (s x sv xv a b : V) (e : Exec) (withSt : Bool)
    (hs : e.resolveV s = .ok sv) (hx : e.resolveV x = .ok xv)
    (hf : fF [sv, xv] = .ok (V.vpair a b)) :
    (accumulate.update ⟨fF, true, withSt⟩ okEmit (ASt.v s) e x).1
        = ASt.v (V.future (e.store.length + 1)) ∧
    (accumulate.update ⟨fF, true, withSt⟩ okEmit (ASt.v s) e
        x).2.exec.resolveV (V.future (e.store.length + 1)) = .ok a ∧
    (accumulate.update ⟨fF, true, withSt⟩ okEmit (ASt.v s) e
        x).2.exec.resolveV (V.future (e.store.length + 2)) = .ok b ∧
    (accumulate.update ⟨fF, true, withSt⟩ okEmit (ASt.v s) e x).2.emitted
        = [if withSt then
             V.vpair (V.future (e.store.length + 1))
               (V.future (e.store.length + 2))
           else V.future (e.store.length + 2)] ∧
    (accumulate.update ⟨fF, true, withSt⟩ okEmit (ASt.v s) e x).2.trace
        = [Ev.submitCall, Ev.submitCall, Ev.submitCall, Ev.stateSet,
           Ev.emitCall (if withSt then
               V.vpair (V.future (e.store.length + 1))
                 (V.future (e.store.length + 2))
             else V.future (e.store.length + 2)),
           Ev.emitAwaited (if withSt then
               V.vpair (V.future (e.store.length + 1))
                 (V.future (e.store.length + 2))
             else V.future (e.store.length + 2))] ∧
    (accumulate.update ⟨fF, false, withSt⟩ okEmit (ASt.v s) e x).1
        = ASt.v (V.future e.store.length) ∧
    (accumulate.update ⟨fF, false, withSt⟩ okEmit (ASt.v s) e x).2.trace
        = [Ev.submitCall, Ev.stateSet,
           Ev.emitCall (if withSt then
               V.vpair (V.future e.store.length) (V.future e.store.length)
             else V.future e.store.length),
           Ev.emitAwaited (if withSt then
               V.vpair (V.future e.store.length) (V.future e.store.length)
             else V.future e.store.length)] := by
  have hargs1 : e.resolveArgs [s, x] = .ok [sv, xv] := by
    simp [Exec.resolveArgs, hs, hx]
  have hp : e.submit fF [s, x]
      = (V.future e.store.length,
         ⟨e.store ++ [Except.ok (V.vpair a b)]⟩) := by
    simp [Exec.submit, hargs1, hf]
  have hres1 : Exec.resolveV ⟨e.store ++ [Except.ok (V.vpair a b)]⟩
      (V.future e.store.length) = .ok (V.vpair a b) := by
    simp only [Exec.resolveV]
    rw [getElem?_snoc_length]
  have hargs2 : Exec.resolveArgs ⟨e.store ++ [Except.ok (V.vpair a b)]⟩
      [V.future e.store.length, V.vint 0]
      = .ok [V.vpair a b, V.vint 0] := by
    simp only [Exec.resolveArgs]
    rw [hres1]
    rfl
  have hq : Exec.submit ⟨e.store ++ [Except.ok (V.vpair a b)]⟩ getitemF
      [V.future e.store.length, V.vint 0]
      = (V.future (e.store.length + 1),
         ⟨e.store ++ [Except.ok (V.vpair a b), Except.ok a]⟩) := by
    simp [Exec.submit, hargs2, getitemF, V.getitem]
  have hres2 : Exec.resolveV
      ⟨e.store ++ [Except.ok (V.vpair a b), Except.ok a]⟩
      (V.future e.store.length) = .ok (V.vpair a b) := by
    simp only [Exec.resolveV]
    rw [getElem?_append_self]
    rfl
  have hargs3 : Exec.resolveArgs
      ⟨e.store ++ [Except.ok (V.vpair a b), Except.ok a]⟩
      [V.future e.store.length, V.vint 1]
      = .ok [V.vpair a b, V.vint 1] := by
    simp only [Exec.resolveArgs]
    rw [hres2]
    rfl
  have hw : Exec.submit
      ⟨e.store ++ [Except.ok (V.vpair a b), Except.ok a]⟩ getitemF
      [V.future e.store.length, V.vint 1]
      = (V.future (e.store.length + 2),
         ⟨e.store ++ [Except.ok (V.vpair a b), Except.ok a,
            Except.ok b]⟩) := by
    simp [Exec.submit, hargs3, getitemF, V.getitem]
  have hfinA : Exec.resolveV
      ⟨e.store ++ [Except.ok (V.vpair a b), Except.ok a, Except.ok b]⟩
      (V.future (e.store.length + 1)) = .ok a := by
    simp only [Exec.resolveV]
    rw [getElem?_append_at]
    rfl
  have hfinB : Exec.resolveV
      ⟨e.store ++ [Except.ok (V.vpair a b), Except.ok a, Except.ok b]⟩
      (V.future (e.store.length + 2)) = .ok b := by
    simp only [Exec.resolveV]
    rw [getElem?_append_at]
    rfl
  refine ⟨?_, ?_, ?_, ?_, ?_, ?_, ?_⟩
  all_goals simp only [accumulate.update, okEmit, hp, hq, hw]
  · rfl
  · exact hfinA
  · exact hfinB
  · rfl
  · rfl
  · rfl
  · rfl

/-- C5 witness: folding with `f(s, x) = (s + x, s * x)` declared to return a
`(state, output)` pair, on state 2 and input 3 over an empty store: the
combined handle is slot 0, the new state is the derived handle at slot 1
resolving to 5, the emitted output is the derived handle at slot 2 resolving
to 6, and the state is written before emission. -/
theorem accumulate_returns_state_witness :
    (⟨[]⟩ : Exec).resolveV (V.vint 2) = .ok (V.vint 2) ∧
    (⟨[]⟩ : Exec).resolveV (V.vint 3) = .ok (V.vint 3) ∧
    sumProdF [V.vint 2, V.vint 3]
        = .ok (V.vpair (V.vint 5) (V.vint 6)) ∧
    ((accumulate.update ⟨sumProdF, true, false⟩ okEmit (ASt.v (V.vint 2))
        ⟨[]⟩ (V.vint 3)).1 = ASt.v (V.future 1) ∧
     (accumulate.update ⟨sumProdF, true, false⟩ okEmit (ASt.v (V.vint 2))
        ⟨[]⟩ (V.vint 3)).2.exec.resolveV (V.future 1) = .ok (V.vint 5) ∧
     (accumulate.update ⟨sumProdF, true, false⟩ okEmit (ASt.v (V.vint 2))
        ⟨[]⟩ (V.vint 3)).2.exec.resolveV (V.future 2) = .ok (V.vint 6) ∧
     (accumulate.update ⟨sumProdF, true, false⟩ okEmit (ASt.v (V.vint 2))
        ⟨[]⟩ (V.vint 3)).2.emitted = [V.future 2] ∧
     (accumulate.update ⟨sumProdF, true, false⟩ okEmit (ASt.v (V.vint 2))
        ⟨[]⟩ (V.vint 3)).2.trace
        = [Ev.submitCall, Ev.submitCall, Ev.submitCall, Ev.stateSet,
           Ev.emitCall (V.future 2), Ev.emitAwaited (V.future 2)] ∧
     (accumulate.update ⟨sumProdF, false, false⟩ okEmit (ASt.v (V.vint 2))
        ⟨[]⟩ (V.vint 3)).1 = ASt.v (V.future 0) ∧
     (accumulate.update ⟨sumProdF, false, false⟩ okEmit (ASt.v (V.vint 2))
        ⟨[]⟩ (V.vint 3)).2.trace
        = [Ev.submitCall, Ev.stateSet, Ev.emitCall (V.future 0),
           Ev.emitAwaited (V.future 0)]) :=
  ⟨by decide, by decide, by decide,
   accumulate_returns_state_indexing sumProdF (V.vint 2) (V.vint 3)
     (V.vint 2) (V.vint 3) (V.vint 5) (V.vint 6) ⟨[]⟩ false
     (by decide) (by decide) (by decide)⟩

/-- C10: Constructing the execution-substituting filter with a `None`
predicate does not install a default truthiness predicate: the constructor
replaces `None` with the bare name `_truthy`, which is bound nowhere in the
module's global namespace (and, starting with an underscore, is no builtin),
so construction raises `NameError` instead of yielding a usable filter. -/
theorem filter_none_predicate_raises_name_error :
    filter.init Option.none []
        = .error "NameError: name _truthy is not defined" ∧
    daskModuleNames.contains "_truthy" = false := by
  have hc : daskModuleNames.contains "_truthy" = false := by decide
  constructor
  · simp only [filter.init, hc]
    rfl
  · exact hc

end StreamzDask
